import Mathlib

/-!
Verification of `src/lib/git/modify_action.js` (r10k-deployerjs).

The file shallowly embeds the `runModify` generator: the regular expression
`module_regex = new RegExp('(' + repoUrl + '[\'"],\s*:ref\s*=>\s*[\'"])([^\'"]+)([\'"]\s*)$', 'gm')`,
the Puppetfile update logic, and the surrounding pipeline (clone, fetch,
branch checkout, commit/push gating, Rundeck dispatch, cleanup and the kue
`done` callback), with the external collaborators (git utilities, file
system, Rundeck) represented by an oracle giving each call's outcome.

Modelling boundaries, stated once here:
* `repoUrl` is interpolated into the regex source untouched.  The model
  translates it character by character, `.` becoming the JavaScript
  wildcard (any char except a line terminator) and every other character a
  literal.  This is exactly the JavaScript behaviour whenever `repoUrl`
  contains no regex metacharacter other than `.`; theorems that quantify
  over the URL carry that side condition (`urlRegexSafe`).
* The replacement string `'$1' + branchName + '$3'` is modelled as
  group 1 ++ branchName ++ group 3, which is the JavaScript behaviour
  whenever `branchName` contains no `'$'`; theorems that quantify over the
  branch name carry that side condition (`noDollar`).
* JavaScript `\s` also matches a handful of Unicode space characters; the
  model includes them.  `$` with the `m` flag matches at end of input or
  before a line terminator; `.` excludes line terminators.
-/

/-- JavaScript `\s` (whitespace class), as used by `module_regex`. -/
def jsWs (c : Char) : Bool :=
  c = ' ' || c = '\t' || c = '\n' || c = '\r' || c = '\x0b' || c = '\x0c' ||
  c = ' ' || c = ' ' || (' ' ≤ c && c ≤ ' ') ||
  c = ' ' || c = ' ' || c = ' ' || c = ' ' || c = '　' ||
  c = '﻿'

/-- JavaScript line terminators: what multiline `$` looks ahead to and `.` excludes. -/
def jsEol (c : Char) : Bool :=
  c = '\n' || c = '\r' || c = ' ' || c = ' '

/-- The character class `['"]` appearing three times in `module_regex`. -/
def isQuote (c : Char) : Bool :=
  c = '\'' || c = '"'

/-- One atom of the interpolated `repoUrl` part of the regex source:
a literal character or the `.` wildcard. -/
inductive UAtom where
  | lit (c : Char)
  | dot
deriving DecidableEq

/-- Whether a single character matches a URL atom. -/
def uatomMatch (a : UAtom) (c : Char) : Bool :=
  match a with
  | .lit c0 => c = c0
  | .dot => !(jsEol c)

/-- Translation of the raw `repoUrl` string into regex atoms: `.` becomes the
wildcard, everything else a literal (see the modelling boundary above). -/
def urlAtoms (s : String) : List UAtom :=
  s.data.map (fun c => if c = '.' then UAtom.dot else UAtom.lit c)

/-- Regex metacharacters other than `.`: a URL containing none of these is
translated faithfully by `urlAtoms`. -/
def urlRegexSafe (s : String) : Bool :=
  s.data.all (fun c => !(['\\', '^', '$', '*', '+', '?', '(', ')',
    '[', ']', '\x7b', '\x7d', '|'].contains c))

/-- Match a literal character sequence (e.g. `:ref`, `=>`) at the head of the
input, returning the remainder. -/
def matchPrefixL : List Char → List Char → Option (List Char)
  | [], l => some l
  | _ :: _, [] => none
  | p :: ps, c :: cs => if c = p then matchPrefixL ps cs else none

/-- Match the interpolated URL atoms at the head of the input, returning the
consumed characters and the remainder.  The URL part has no quantifier, so
matching is deterministic. -/
def matchUrlL : List UAtom → List Char → Option (List Char × List Char)
  | [], l => some ([], l)
  | _ :: _, [] => none
  | a :: as, c :: cs =>
    if uatomMatch a c then
      (matchUrlL as cs).map (fun p => (c :: p.1, p.2))
    else none

/-- Index of the last line terminator of `w`, if any. -/
def lastEolIdx (w : List Char) : Option Nat :=
  match w.reverse.findIdx? jsEol with
  | none => none
  | some k => some (w.length - 1 - k)

/-- Greedy match of the trailing `\s*$` of `module_regex` (multiline `$`):
consume the longest whitespace prefix that leaves the position at end of
input or directly before a line terminator.  Returns (consumed, remainder). -/
def wsEol (l : List Char) : Option (List Char × List Char) :=
  if (l.dropWhile jsWs).isEmpty then some (l.takeWhile jsWs, [])
  else
    match lastEolIdx (l.takeWhile jsWs) with
    | none => none
    | some j => some ((l.takeWhile jsWs).take j,
        (l.takeWhile jsWs).drop j ++ l.dropWhile jsWs)

/-- Match a single character from a class (e.g. `['"]`), returning it and the
remainder. -/
def matchClass (p : Char → Bool) : List Char → Option (Char × List Char)
  | [] => none
  | c :: cs => if p c then some (c, cs) else none

/-- A match of `module_regex`: the three capturing groups
`(repoUrl['"],\s*:ref\s*=>\s*['"])`, `([^'"]+)`, `(['"]\s*)` and the input
remainder after the match. -/
structure MatchRes where
  g1 : List Char
  g2 : List Char
  g3 : List Char
  rest : List Char
deriving DecidableEq

/-- Attempt to match `module_regex` at the current position.  The pattern
after the URL atoms is
`['"] , \s* :ref \s* => \s* ['"] ([^'"]+) ['"] \s* $`; every quantified part
is a character-class star/plus followed by a character outside the class, so
greedy matching needs no backtracking except at the final `\s*$`, which
`wsEol` resolves. -/
def matchAt (pat : List UAtom) (l : List Char) : Option MatchRes :=
  match matchUrlL pat l with
  | none => none
  | some (u, l1) =>
  match matchClass isQuote l1 with
  | none => none
  | some (q1, l2) =>
  match matchClass (fun c => c = ',') l2 with
  | none => none
  | some (comma, l3) =>
  match matchPrefixL [':', 'r', 'e', 'f'] (l3.dropWhile jsWs) with
  | none => none
  | some l5 =>
  match matchPrefixL ['=', '>'] (l5.dropWhile jsWs) with
  | none => none
  | some l7 =>
  match matchClass isQuote (l7.dropWhile jsWs) with
  | none => none
  | some (q2, l9) =>
  if (l9.takeWhile (fun c => !(isQuote c))).isEmpty then none
  else
    match matchClass isQuote (l9.dropWhile (fun c => !(isQuote c))) with
    | none => none
    | some (q3, l11) =>
    match wsEol l11 with
    | none => none
    | some (w4, rest) =>
      some ⟨u ++ q1 :: comma :: (l3.takeWhile jsWs ++ ':' :: 'r' :: 'e' :: 'f' ::
              (l5.takeWhile jsWs ++ '=' :: '>' :: (l7.takeWhile jsWs ++ [q2]))),
            l9.takeWhile (fun c => !(isQuote c)), q3 :: w4, rest⟩

/-- Leftmost match of `module_regex`: scan start positions left to right,
returning the skipped prefix and the match.  This is both what
`module_regex.exec(content)` finds (fresh regex, `lastIndex = 0`) and the
first match processed by `content.replace(module_regex, ...)`. -/
def regexFind (pat : List UAtom) : List Char → Option (List Char × MatchRes)
  | [] => (matchAt pat []).map (fun m => ([], m))
  | c :: tl =>
    match matchAt pat (c :: tl) with
    | some m => some ([], m)
    | none => (regexFind pat tl).map (fun p => (c :: p.1, p.2))

/-- `module_regex.exec(content)`: the first match, if any. -/
def regexExec (pat : List UAtom) (l : List Char) : Option MatchRes :=
  (regexFind pat l).map (fun p => p.2)

/-- Whether a character list is matched, atom by atom, by the URL part of the
pattern (used to state what a successful match implies about group 1). -/
def atomsMatch : List UAtom → List Char → Bool
  | [], [] => true
  | a :: as, c :: cs => uatomMatch a c && atomsMatch as cs
  | _, _ => false

/-- One pass of `content.replace(module_regex, '$1' + branchName + '$3')`
with explicit fuel (the fuel is only a termination device: `l.length` steps
always suffice because every match consumes at least one character).  Each
found match is replaced by `group1 ++ branchName ++ group3` and the scan
resumes after the match, exactly the JavaScript global-replace semantics. -/
def replAllF (pat : List UAtom) (b : List Char) : Nat → List Char → List Char
  | 0, l => l
  | fuel + 1, l =>
    match regexFind pat l with
    | none => l
    | some (pre, m) => pre ++ m.g1 ++ b ++ m.g3 ++ replAllF pat b fuel m.rest

/-- `content.replace(module_regex, '$1' + branchName + '$3')` (global flag:
every match is replaced, not only the first). -/
def replAll (pat : List UAtom) (b : List Char) (l : List Char) : List Char :=
  replAllF pat b l.length l

/-- `process.env.PUPPETFILE_GIT_DEFAULT_BRANCH || 'production'` (an unset or
empty environment variable is falsy, so the literal `'production'` is used). -/
def defaultBranchOf (env : Option String) : String :=
  match env with
  | none => "production"
  | some s => if s = "" then "production" else s

/-- Resolution of the target manifest branch (lines 38–42): an event branch
literally equal to `'production'` resolves to the configured default branch,
any other branch resolves to itself. -/
def puppetfileBranchNameOf (env : Option String) (branch : String) : String :=
  if branch = "production" then defaultBranchOf env else branch

/-- The string appended to the Puppetfile when the module is not yet
referenced (line 89). -/
def appendedEntry (moduleName repoUrl branchName : String) : String :=
  "\nmod \"" ++ moduleName ++ "\",\n  :git => \"" ++ repoUrl ++ "\",\n  :ref => \"" ++
    branchName ++ "\"\n"

/-- `branchName` contains no `'$'` (under which the modelled replacement
string is exactly the JavaScript one; see the header). -/
def noDollar (s : String) : Bool :=
  s.data.all (fun c => c ≠ '$')

/-- The Puppetfile update step (lines 80–117), as a pure function from the
file content to the new content and whether it was rewritten:
- no match (`!moduleDefined`): append a new entry using the literal event
  branch name, rewrite needed;
- first match whose captured ref differs from both the resolved branch name
  and the literal `'production'`: global replace of every match's ref with
  the literal event branch name, rewrite needed;
- otherwise: unchanged, no rewrite. -/
def updatePuppetfile (pat : List UAtom) (moduleName repoUrl branchName
    puppetfileBranchName : String) (content : String) : String × Bool :=
  match regexExec pat content.data with
  | none => (content ++ appendedEntry moduleName repoUrl branchName, true)
  | some m =>
    if String.mk m.g2 ≠ puppetfileBranchName ∧ String.mk m.g2 ≠ "production" then
      (String.mk (replAll pat branchName.data content.data), true)
    else (content, false)

/-- The incoming "modify" event (`eventData`). -/
structure EventData where
  branch : String
  reponame : String
  repourl : String
  pushuser : String
  repopath : String
  pfrepo : String
deriving DecidableEq

/-- Outcomes of the external collaborators during one run: each git utility,
file-system and Rundeck call either succeeds (with its value) or throws.
`removeCatchRes` is the outcome of the `fse.remove` issued inside the catch
block (a separate call from the one in the success path). -/
structure Oracle where
  now : Nat
  cloneRes : Except String Unit
  fetchRes : Except String Unit
  branchExistRes : Except String Bool
  checkoutExistingRes : Except String Bool
  checkoutNewRes : Except String Unit
  readRes : Except String String
  writeRes : Except String Unit
  commitRes : Except String Unit
  pushRes : Except String Unit
  runJobRes : Except String String
  removeRes : Except String Unit
  removeCatchRes : Except String Unit

/-- Externally visible steps of one run, in execution order.  A step is
recorded when the corresponding call completes successfully; `report r` is
the kue `done` callback `cbk(r)`. -/
inductive Ev where
  | clone | fetch | branchExist | checkoutExisting | checkoutNew
  | readFile | writeFile | commit | push | runJob | remove | chdir
  | report (r : Option String)
deriving DecidableEq

/-- How the run ends: `reported r` means `cbk(r)` was called; `uncaught e`
means an exception escaped the generator (the `fse.remove` inside the catch
block itself rejected), so `cbk` was never called. -/
inductive Outcome where
  | reported (r : Option String)
  | uncaught (e : String)
deriving DecidableEq

/-- The observable result of one `runModify` run. -/
structure RunResult where
  events : List Ev
  gitdir : String
  commitNeeded : Bool
  fullDeploymentNeeded : Bool
  manifest : Option String
  rundeckType : Option String
  outcome : Outcome
deriving DecidableEq

/-- The catch block (lines 170–181): restore the working directory, remove
the temp dir, then call `cbk(err)`.  If the removal itself throws, the
exception escapes and `cbk` is never reached. -/
def catchPart (o : Oracle) (gd : String) (evs : List Ev) (cn fd : Bool)
    (mani : Option String) (rt : Option String) (e : String) : RunResult :=
  match o.removeCatchRes with
  | .error e2 => ⟨evs ++ [Ev.chdir], gd, cn, fd, mani, rt, .uncaught e2⟩
  | .ok _ =>
    ⟨evs ++ [Ev.chdir, Ev.remove, Ev.report (some e)], gd, cn, fd, mani, rt,
      .reported (some e)⟩

/-- Lines 143–168: choose the Rundeck job type from `fullDeploymentNeeded`,
launch the job, remove the temp dir and call `cbk(null)`. -/
def finishPart (o : Oracle) (gd : String) (evs : List Ev) (cn fd : Bool)
    (mani : Option String) : RunResult :=
  match o.runJobRes with
  | .error e =>
    catchPart o gd evs cn fd mani (some (if fd then "deploy_env" else "deploy_mod")) e
  | .ok _status =>
    match o.removeRes with
    | .error e =>
      catchPart o gd (evs ++ [Ev.runJob]) cn fd mani
        (some (if fd then "deploy_env" else "deploy_mod")) e
    | .ok _ =>
      ⟨evs ++ [Ev.runJob, Ev.remove, Ev.report none], gd, cn, fd, mani,
        some (if fd then "deploy_env" else "deploy_mod"), .reported none⟩

/-- Lines 136–141: push iff `commitNeeded || fullDeploymentNeeded`. -/
def pushPart (o : Oracle) (gd : String) (evs : List Ev) (cn fd : Bool)
    (mani : Option String) : RunResult :=
  if cn || fd then
    match o.pushRes with
    | .error e => catchPart o gd evs cn fd mani none e
    | .ok _ => finishPart o gd (evs ++ [Ev.push]) cn fd mani
  else finishPart o gd evs cn fd mani

/-- Lines 127–134: commit iff `commitNeeded`. -/
def commitPart (o : Oracle) (gd : String) (evs : List Ev) (cn fd : Bool)
    (mani : Option String) : RunResult :=
  if cn then
    match o.commitRes with
    | .error e => catchPart o gd evs cn fd mani none e
    | .ok _ => pushPart o gd (evs ++ [Ev.commit]) cn fd mani
  else pushPart o gd evs cn fd mani

/-- Lines 79–117: read the Puppetfile, update it (`updatePuppetfile`), write
it back when modified and then force `commitNeeded`. -/
def updatePart (o : Oracle) (pat : List UAtom)
    (moduleName repoUrl branchName pfBranch : String) (gd : String)
    (evs : List Ev) (cn fd : Bool) : RunResult :=
  match o.readRes with
  | .error e => catchPart o gd evs cn fd none none e
  | .ok content =>
    if (updatePuppetfile pat moduleName repoUrl branchName pfBranch content).2 then
      match o.writeRes with
      | .error e => catchPart o gd (evs ++ [Ev.readFile]) cn fd none none e
      | .ok _ =>
        commitPart o gd (evs ++ [Ev.readFile, Ev.writeFile]) true fd
          (some (updatePuppetfile pat moduleName repoUrl branchName pfBranch content).1)
    else commitPart o gd (evs ++ [Ev.readFile]) cn fd none

/-- The whole `runModify` generator: temp-dir naming from `Date.now()`,
clone, fetch, branch-existence check, checkout (existing with merge
detection, or new with `fullDeploymentNeeded = commitNeeded = true`), then
the manifest update, gated commit and push, Rundeck dispatch and cleanup. -/
def runModify (ev : EventData) (envDefault : Option String) (o : Oracle) :
    RunResult :=
  match o.cloneRes with
  | .error e =>
    catchPart o ("/var/tmp/puppetfile_repo_" ++ Nat.repr o.now) [] false false none none e
  | .ok _ =>
  match o.fetchRes with
  | .error e =>
    catchPart o ("/var/tmp/puppetfile_repo_" ++ Nat.repr o.now) [Ev.clone] false false
      none none e
  | .ok _ =>
  match o.branchExistRes with
  | .error e =>
    catchPart o ("/var/tmp/puppetfile_repo_" ++ Nat.repr o.now) [Ev.clone, Ev.fetch]
      false false none none e
  | .ok bex =>
  if bex then
    match o.checkoutExistingRes with
    | .error e =>
      catchPart o ("/var/tmp/puppetfile_repo_" ++ Nat.repr o.now)
        [Ev.clone, Ev.fetch, Ev.branchExist] false false none none e
    | .ok fd =>
      updatePart o (urlAtoms ev.repourl) ev.reponame ev.repourl ev.branch
        (puppetfileBranchNameOf envDefault ev.branch)
        ("/var/tmp/puppetfile_repo_" ++ Nat.repr o.now)
        [Ev.clone, Ev.fetch, Ev.branchExist, Ev.checkoutExisting] false fd
  else
    match o.checkoutNewRes with
    | .error e =>
      catchPart o ("/var/tmp/puppetfile_repo_" ++ Nat.repr o.now)
        [Ev.clone, Ev.fetch, Ev.branchExist] false false none none e
    | .ok _ =>
      updatePart o (urlAtoms ev.repourl) ev.reponame ev.repourl ev.branch
        (puppetfileBranchNameOf envDefault ev.branch)
        ("/var/tmp/puppetfile_repo_" ++ Nat.repr o.now)
        [Ev.clone, Ev.fetch, Ev.branchExist, Ev.checkoutNew] true true

/-- Value of a decimal digit character (left inverse of `Nat.digitChar` on
digits below 10); used only to prove that temp-dir names determine the
timestamp. -/
def digitVal (c : Char) : Nat :=
  if c = '0' then 0 else if c = '1' then 1 else if c = '2' then 2
  else if c = '3' then 3 else if c = '4' then 4 else if c = '5' then 5
  else if c = '6' then 6 else if c = '7' then 7 else if c = '8' then 8
  else if c = '9' then 9 else 0

/-- Decimal value of a digit string, most significant first, with accumulator. -/
def decValAux (a : Nat) : List Char → Nat
  | [] => a
  | c :: tl => decValAux (10 * a + digitVal c) tl

/-- Shifting an accumulator past the decimal digits of `n`. -/
def shiftDec (a n : Nat) : Nat :=
  if n / 10 = 0 then 10 * a + n % 10
  else 10 * shiftDec a (n / 10) + n % 10
termination_by n
decreasing_by
  exact Nat.div_lt_self (by omega) (by omega)

/-- Whether an external call succeeded. -/
def okB {α : Type} : Except String α → Bool
  | .ok _ => true
  | .error _ => false

/-- `e` is the error thrown by one of the steps executed inside the `try`
block (so a surfaced error is a genuine step failure, not fabricated by the
cleanup). -/
def isOracleErr (o : Oracle) (e : String) : Prop :=
  o.cloneRes = .error e ∨ o.fetchRes = .error e ∨ o.branchExistRes = .error e ∨
  o.checkoutExistingRes = .error e ∨ o.checkoutNewRes = .error e ∨
  o.readRes = .error e ∨ o.writeRes = .error e ∨ o.commitRes = .error e ∨
  o.pushRes = .error e ∨ o.runJobRes = .error e ∨ o.removeRes = .error e

/-- Concrete fixtures used by witnesses and counterexamples below. -/
def evW : EventData :=
  ⟨"feature-x", "mymod", "https://git/mymod", "alice", "envs/path", "git@host:pf.git"⟩

def evW2 : EventData :=
  ⟨"feature-y", "othermod", "https://git/othermod", "bob", "envs/p2", "git@host:pf.git"⟩

/-- A Puppetfile whose entry for `evW`'s repo already points at `feature-x`. -/
def maniW : String :=
  "mod \"mymod\",\n  :git => \"https://git/mymod\",\n  :ref => \"feature-x\"\n"

/-- A Puppetfile whose entry for `evW`'s repo points at a stale reference. -/
def maniOldW : String :=
  "mod \"mymod\",\n  :git => \"https://git/mymod\",\n  :ref => \"old-br\"\n"

/-- A Puppetfile with two entries for the same repository URL `u`. -/
def twoEntriesW : String :=
  "mod \"m1\",\n  :git => \"u\",\n  :ref => \"aa\"\nmod \"m2\",\n  :git => \"u\",\n  :ref => \"bb\"\n"

/-- A Puppetfile whose only entry is for `https://a/b/mod`, a URL that merely
ends with the event URL `b/mod`. -/
def maniSufW : String :=
  "mod \"mod\",\n  :git => \"https://a/b/mod\",\n  :ref => \"old\"\n"

/-- A Puppetfile entry pointing at `old-ref`, used with event branch
`production` and default-branch override `master`. -/
def maniProdW : String :=
  "mod \"m\",\n  :git => \"https://git/m\",\n  :ref => \"old-ref\"\n"

/-- An oracle where every external call succeeds. -/
def oracleAllOk (content : String) (bex : Bool) : Oracle :=
  ⟨42, .ok (), .ok (), .ok bex, .ok false, .ok (), .ok content, .ok (), .ok (),
   .ok (), .ok "SUCCEEDED", .ok (), .ok ()⟩

/-- An oracle where the clone fails and the cleanup in the catch block also
fails. -/
def oracleC9 : Oracle :=
  ⟨42, .error "clone boom", .ok (), .ok true, .ok false, .ok (), .ok maniW,
   .ok (), .ok (), .ok (), .ok "SUCCEEDED", .ok (), .error "rm boom"⟩

theorem matchClass_eq {p : Char → Bool} {l : List Char} {c : Char} {r : List Char}
    (h : matchClass p l = some (c, r)) : l = c :: r ∧ p c = true := by
  cases l with
  | nil => simp [matchClass] at h
  | cons c0 cs =>
    simp only [matchClass] at h
    by_cases hp : p c0 = true
    · rw [if_pos hp] at h
      simp only [Option.some.injEq, Prod.mk.injEq] at h
      obtain ⟨h1, h2⟩ := h
      subst h1; subst h2
      exact ⟨rfl, hp⟩
    · rw [if_neg hp] at h
      exact absurd h (by simp)

theorem matchPrefixL_append {p l r : List Char}
    (h : matchPrefixL p l = some r) : l = p ++ r := by
  induction p generalizing l with
  | nil =>
    simp only [matchPrefixL, Option.some.injEq] at h
    simpa using h
  | cons x xs ih =>
    cases l with
    | nil => simp [matchPrefixL] at h
    | cons c cs =>
      simp only [matchPrefixL] at h
      by_cases hc : c = x
      · rw [if_pos hc] at h
        subst hc
        simpa using ih h
      · rw [if_neg hc] at h
        exact absurd h (by simp)

theorem matchUrlL_append {pat : List UAtom} {l u r : List Char}
    (h : matchUrlL pat l = some (u, r)) : l = u ++ r ∧ atomsMatch pat u = true := by
  induction pat generalizing l u r with
  | nil =>
    simp only [matchUrlL, Option.some.injEq, Prod.mk.injEq] at h
    obtain ⟨h1, h2⟩ := h
    subst h1; subst h2
    simp [atomsMatch]
  | cons a as ih =>
    cases l with
    | nil => simp [matchUrlL] at h
    | cons c cs =>
      simp only [matchUrlL] at h
      by_cases hm : uatomMatch a c = true
      · rw [if_pos hm] at h
        cases hrec : matchUrlL as cs with
        | none => rw [hrec] at h; exact absurd h (by simp)
        | some p =>
          obtain ⟨u0, r0⟩ := p
          rw [hrec] at h
          simp only [Option.map_some', Option.some.injEq, Prod.mk.injEq] at h
          obtain ⟨h1, h2⟩ := h
          subst h1; subst h2
          obtain ⟨h3, h4⟩ := ih hrec
          subst h3
          simp [atomsMatch, hm, h4]
      · rw [if_neg hm] at h
        exact absurd h (by simp)

theorem wsEol_append {l w r : List Char} (h : wsEol l = some (w, r)) :
    l = w ++ r := by
  unfold wsEol at h
  by_cases hemp : (l.dropWhile jsWs).isEmpty = true
  · rw [if_pos hemp] at h
    simp only [Option.some.injEq, Prod.mk.injEq] at h
    obtain ⟨h1, h2⟩ := h
    subst h1; subst h2
    have h3 : l.takeWhile jsWs ++ l.dropWhile jsWs = l := List.takeWhile_append_dropWhile jsWs l
    rw [List.isEmpty_iff] at hemp
    rw [hemp] at h3
    simpa using h3.symm
  · rw [if_neg hemp] at h
    cases hj : lastEolIdx (l.takeWhile jsWs) with
    | none => rw [hj] at h; exact absurd h (by simp)
    | some j =>
      rw [hj] at h
      simp only [Option.some.injEq, Prod.mk.injEq] at h
      obtain ⟨h1, h2⟩ := h
      subst h1; subst h2
      calc l = l.takeWhile jsWs ++ l.dropWhile jsWs := (List.takeWhile_append_dropWhile jsWs l).symm
        _ = ((l.takeWhile jsWs).take j ++ (l.takeWhile jsWs).drop j) ++ l.dropWhile jsWs := by
              rw [List.take_append_drop]
        _ = (l.takeWhile jsWs).take j ++ ((l.takeWhile jsWs).drop j ++ l.dropWhile jsWs) := by
              rw [List.append_assoc]

/-- A successful `matchAt` decomposes the input as
`group1 ++ group2 ++ group3 ++ rest`; group 1 is nonempty and starts with a
string matched by the URL atoms followed by a quote. -/
theorem matchAt_decomp {pat : List UAtom} {l : List Char} {m : MatchRes}
    (h : matchAt pat l = some m) :
    l = m.g1 ++ m.g2 ++ m.g3 ++ m.rest ∧ m.g1 ≠ [] ∧
    ∃ u q t, m.g1 = u ++ q :: t ∧ atomsMatch pat u = true ∧ isQuote q = true := by
  unfold matchAt at h
  cases hu : matchUrlL pat l with
  | none => simp [hu] at h
  | some p =>
  obtain ⟨u, l1⟩ := p
  simp only [hu] at h
  cases hq1 : matchClass isQuote l1 with
  | none => simp [hq1] at h
  | some p =>
  obtain ⟨q1, l2⟩ := p
  simp only [hq1] at h
  cases hcm : matchClass (fun c => c = ',') l2 with
  | none => simp [hcm] at h
  | some p =>
  obtain ⟨comma, l3⟩ := p
  simp only [hcm] at h
  cases href : matchPrefixL [':', 'r', 'e', 'f'] (l3.dropWhile jsWs) with
  | none => simp [href] at h
  | some l5 =>
  simp only [href] at h
  cases harr : matchPrefixL ['=', '>'] (l5.dropWhile jsWs) with
  | none => simp [harr] at h
  | some l7 =>
  simp only [harr] at h
  cases hq2 : matchClass isQuote (l7.dropWhile jsWs) with
  | none => simp [hq2] at h
  | some p =>
  obtain ⟨q2, l9⟩ := p
  simp only [hq2] at h
  by_cases hg2 : (l9.takeWhile (fun c => !(isQuote c))).isEmpty = true
  · rw [if_pos hg2] at h; exact absurd h (by simp)
  rw [if_neg hg2] at h
  cases hq3 : matchClass isQuote (l9.dropWhile (fun c => !(isQuote c))) with
  | none => simp [hq3] at h
  | some p =>
  obtain ⟨q3, l11⟩ := p
  simp only [hq3] at h
  cases hws : wsEol l11 with
  | none => simp [hws] at h
  | some p =>
  obtain ⟨w4, rest⟩ := p
  simp only [hws] at h
  simp only [Option.some.injEq] at h
  subst h
  obtain ⟨hul, hatoms⟩ := matchUrlL_append hu
  obtain ⟨hl1, hq1t⟩ := matchClass_eq hq1
  obtain ⟨hl2, _⟩ := matchClass_eq hcm
  have hl3 : l3 = l3.takeWhile jsWs ++ l3.dropWhile jsWs := (List.takeWhile_append_dropWhile jsWs l3).symm
  have hl4 := matchPrefixL_append href
  have hl5 : l5 = l5.takeWhile jsWs ++ l5.dropWhile jsWs := (List.takeWhile_append_dropWhile jsWs l5).symm
  have hl6 := matchPrefixL_append harr
  have hl7 : l7 = l7.takeWhile jsWs ++ l7.dropWhile jsWs := (List.takeWhile_append_dropWhile jsWs l7).symm
  obtain ⟨hl8, hq2t⟩ := matchClass_eq hq2
  have hl9 : l9 = l9.takeWhile (fun c => !(isQuote c)) ++ l9.dropWhile (fun c => !(isQuote c)) :=
    (List.takeWhile_append_dropWhile (fun c => !(isQuote c)) l9).symm
  obtain ⟨hl10, hq3t⟩ := matchClass_eq hq3
  have hl11 := wsEol_append hws
  refine ⟨?_, by simp, u, q1, _, rfl, hatoms, hq1t⟩
  simp only
  rw [hul, hl1, hl2]
  conv_lhs => rw [hl3, hl4, hl5, hl6, hl7, hl8, hl9, hl10, hl11]
  simp

/-- A successful `regexFind` decomposes the input as
`skipped ++ group1 ++ group2 ++ group3 ++ rest`. -/
theorem regexFind_decomp {pat : List UAtom} {l pre : List Char} {m : MatchRes}
    (h : regexFind pat l = some (pre, m)) :
    l = pre ++ m.g1 ++ m.g2 ++ m.g3 ++ m.rest := by
  induction l generalizing pre m with
  | nil =>
    simp only [regexFind] at h
    cases hm : matchAt pat [] with
    | none => simp [hm] at h
    | some m0 =>
      simp only [hm, Option.map_some', Option.some.injEq] at h
      obtain ⟨h1, h2⟩ : pre = [] ∧ m0 = m := by
        cases h; exact ⟨rfl, rfl⟩
      subst h1; subst h2
      simpa using (matchAt_decomp hm).1
  | cons c tl ih =>
    simp only [regexFind] at h
    cases hm : matchAt pat (c :: tl) with
    | some m0 =>
      simp only [hm, Option.some.injEq] at h
      obtain ⟨h1, h2⟩ : pre = [] ∧ m0 = m := by
        cases h; exact ⟨rfl, rfl⟩
      subst h1; subst h2
      simpa using (matchAt_decomp hm).1
    | none =>
      simp only [hm] at h
      cases hr : regexFind pat tl with
      | none => simp [hr] at h
      | some p =>
        obtain ⟨pre0, m0⟩ := p
        simp only [hr, Option.map_some', Option.some.injEq] at h
        obtain ⟨h1, h2⟩ : c :: pre0 = pre ∧ m0 = m := by
          cases h; exact ⟨rfl, rfl⟩
        subst h1; subst h2
        simpa using ih hr

theorem regexFind_g1_ne_nil {pat : List UAtom} {l pre : List Char} {m : MatchRes}
    (h : regexFind pat l = some (pre, m)) : m.g1 ≠ [] := by
  induction l generalizing pre m with
  | nil =>
    simp only [regexFind] at h
    cases hm : matchAt pat [] with
    | none => simp [hm] at h
    | some m0 =>
      simp only [hm, Option.map_some', Option.some.injEq] at h
      obtain ⟨h1, h2⟩ : pre = [] ∧ m0 = m := by cases h; exact ⟨rfl, rfl⟩
      subst h2
      exact (matchAt_decomp hm).2.1
  | cons c tl ih =>
    simp only [regexFind] at h
    cases hm : matchAt pat (c :: tl) with
    | some m0 =>
      simp only [hm, Option.some.injEq] at h
      obtain ⟨h1, h2⟩ : pre = [] ∧ m0 = m := by cases h; exact ⟨rfl, rfl⟩
      subst h2
      exact (matchAt_decomp hm).2.1
    | none =>
      simp only [hm] at h
      cases hr : regexFind pat tl with
      | none => simp [hr] at h
      | some p =>
        obtain ⟨pre0, m0⟩ := p
        simp only [hr, Option.map_some', Option.some.injEq] at h
        obtain ⟨h1, h2⟩ : c :: pre0 = pre ∧ m0 = m := by cases h; exact ⟨rfl, rfl⟩
        subst h2
        exact ih hr

/-- The remainder after a found match is strictly shorter than the input
(group 1 is never empty), which bounds the recursion of the global replace. -/
theorem regexFind_rest_lt {pat : List UAtom} {l pre : List Char} {m : MatchRes}
    (h : regexFind pat l = some (pre, m)) : m.rest.length < l.length := by
  have hd := regexFind_decomp h
  have hg1 := regexFind_g1_ne_nil h
  have : 0 < m.g1.length := List.length_pos.mpr hg1
  rw [hd]
  simp only [List.length_append]
  omega

/-- The fuel of `replAllF` is irrelevant once it covers the input length. -/
theorem replAllF_fuel {pat : List UAtom} {b : List Char} :
    ∀ {f1 f2 : Nat} {l : List Char}, l.length ≤ f1 → l.length ≤ f2 →
      replAllF pat b f1 l = replAllF pat b f2 l := by
  intro f1
  induction f1 using Nat.strong_induction_on with
  | _ f1 ih =>
    intro f2 l h1 h2
    match f1, f2 with
    | 0, 0 => rfl
    | 0, f2 + 1 =>
      have : l = [] := List.eq_nil_of_length_eq_zero (Nat.le_zero.mp h1)
      subst this
      simp [replAllF, regexFind]
      cases hm : matchAt pat [] with
      | none => simp
      | some m0 =>
        exfalso
        have := (matchAt_decomp hm).2.1
        have hd := (matchAt_decomp hm).1
        cases hg : m0.g1 with
        | nil => exact this hg
        | cons a b =>
          rw [hg] at hd
          simp at hd
    | f1 + 1, 0 =>
      have : l = [] := List.eq_nil_of_length_eq_zero (Nat.le_zero.mp h2)
      subst this
      simp [replAllF, regexFind]
      cases hm : matchAt pat [] with
      | none => simp
      | some m0 =>
        exfalso
        have := (matchAt_decomp hm).2.1
        have hd := (matchAt_decomp hm).1
        cases hg : m0.g1 with
        | nil => exact this hg
        | cons a b =>
          rw [hg] at hd
          simp at hd
    | f1 + 1, f2 + 1 =>
      cases hr : regexFind pat l with
      | none => simp only [replAllF, hr]
      | some p =>
        obtain ⟨pre, m⟩ := p
        have hlt := regexFind_rest_lt hr
        have hrec := ih f1 (Nat.lt_succ_self f1)
          (show m.rest.length ≤ f1 by omega) (show m.rest.length ≤ f2 by omega)
        simp only [replAllF, hr]
        rw [hrec]

/-- Unfolding `replAll` when there is no match: the text is unchanged. -/
theorem replAll_none {pat : List UAtom} {b l : List Char}
    (h : regexFind pat l = none) : replAll pat b l = l := by
  unfold replAll
  cases hl : l.length with
  | zero => simp [replAllF]
  | succ n => simp [replAllF, h]

/-- Unfolding `replAll` at a found match: the match is replaced by
`group1 ++ branchName ++ group3` and replacement continues in the remainder. -/
theorem replAll_some {pat : List UAtom} {b l pre : List Char} {m : MatchRes}
    (h : regexFind pat l = some (pre, m)) :
    replAll pat b l = pre ++ m.g1 ++ b ++ m.g3 ++ replAll pat b m.rest := by
  unfold replAll
  have hlt := regexFind_rest_lt h
  cases hl : l.length with
  | zero =>
    exfalso
    omega
  | succ n =>
    simp only [replAllF, h]
    have : replAllF pat b n m.rest = replAllF pat b m.rest.length m.rest :=
      replAllF_fuel (by omega) (by omega)
    rw [this]

theorem digitVal_digitChar : ∀ d, d < 10 → digitVal (Nat.digitChar d) = d := by
  decide

theorem decValAux_toDigitsCore :
    ∀ f n ds a, n < f →
      decValAux a (Nat.toDigitsCore 10 f n ds) = decValAux (shiftDec a n) ds := by
  intro f
  induction f with
  | zero => intro n ds a h; omega
  | succ f ih =>
    intro n ds a h
    rw [show Nat.toDigitsCore 10 (f + 1) n ds =
      (if n / 10 = 0 then Nat.digitChar (n % 10) :: ds
       else Nat.toDigitsCore 10 f (n / 10) (Nat.digitChar (n % 10) :: ds)) from rfl]
    by_cases h10 : n / 10 = 0
    · rw [if_pos h10]
      show decValAux (10 * a + digitVal (Nat.digitChar (n % 10))) ds = _
      rw [digitVal_digitChar _ (Nat.mod_lt _ (by omega))]
      rw [show shiftDec a n = 10 * a + n % 10 from by rw [shiftDec, if_pos h10]]
    · rw [if_neg h10]
      have hlt : n / 10 < f := by
        have := Nat.div_lt_self (show 0 < n by omega) (show 1 < 10 by omega)
        omega
      rw [ih (n / 10) _ a hlt]
      show decValAux (10 * shiftDec a (n / 10) + digitVal (Nat.digitChar (n % 10))) ds = _
      rw [digitVal_digitChar _ (Nat.mod_lt _ (by omega))]
      rw [show shiftDec a n = 10 * shiftDec a (n / 10) + n % 10 from by
        rw [shiftDec, if_neg h10]]

theorem shiftDec_zero : ∀ n, shiftDec 0 n = n := by
  intro n
  induction n using Nat.strong_induction_on with
  | _ n ih =>
    rw [shiftDec]
    by_cases h10 : n / 10 = 0
    · rw [if_pos h10]; omega
    · rw [if_neg h10]
      rw [ih (n / 10) (Nat.div_lt_self (by omega) (by omega))]
      omega

theorem decValAux_toDigits (n : Nat) : decValAux 0 (Nat.toDigits 10 n) = n := by
  rw [show Nat.toDigits 10 n = Nat.toDigitsCore 10 (n + 1) n [] from rfl]
  rw [decValAux_toDigitsCore (n + 1) n [] 0 (by omega)]
  exact shiftDec_zero n

/-- Decimal printing of natural numbers is injective. -/
theorem natRepr_inj {n m : Nat} (h : Nat.repr n = Nat.repr m) : n = m := by
  have hd : Nat.toDigits 10 n = Nat.toDigits 10 m := congrArg String.data h
  calc n = decValAux 0 (Nat.toDigits 10 n) := (decValAux_toDigits n).symm
    _ = decValAux 0 (Nat.toDigits 10 m) := by rw [hd]
    _ = m := decValAux_toDigits m

theorem catchPart_spec (o : Oracle) (gd : String) (evs : List Ev) (cn fd : Bool)
    (mani rt : Option String) (e : String) :
    (catchPart o gd evs cn fd mani rt e).gitdir = gd ∧
    (catchPart o gd evs cn fd mani rt e).commitNeeded = cn ∧
    (catchPart o gd evs cn fd mani rt e).fullDeploymentNeeded = fd ∧
    (catchPart o gd evs cn fd mani rt e).manifest = mani ∧
    (∃ t, (catchPart o gd evs cn fd mani rt e).events = evs ++ t ∧
      t.count Ev.commit = 0 ∧ t.count Ev.push = 0 ∧ t.count Ev.writeFile = 0 ∧
      t.count Ev.checkoutNew = 0) ∧
    ((catchPart o gd evs cn fd mani rt e).outcome ≠ Outcome.reported none) ∧
    (∀ e0, (catchPart o gd evs cn fd mani rt e).outcome = Outcome.reported (some e0) →
      e0 = e ∧ Ev.chdir ∈ (catchPart o gd evs cn fd mani rt e).events) ∧
    (okB o.removeCatchRes = true →
      ∃ p rr, (catchPart o gd evs cn fd mani rt e).events = p ++ [Ev.remove, Ev.report rr] ∧
        (∀ x, Ev.report x ∈ p → Ev.report x ∈ evs) ∧
        (catchPart o gd evs cn fd mani rt e).outcome = Outcome.reported rr) := by
  cases hr : o.removeCatchRes with
  | error e2 =>
    simp only [catchPart, hr]
    refine ⟨trivial, trivial, trivial, trivial,
      ⟨[Ev.chdir], rfl, by simp, by simp, by simp, by simp⟩,
      by simp, by simp, by simp [okB]⟩
  | ok u =>
    simp only [catchPart, hr]
    refine ⟨trivial, trivial, trivial, trivial,
      ⟨[Ev.chdir, Ev.remove, Ev.report (some e)], rfl, by simp, by simp, by simp, by simp⟩,
      by simp, by simp, ?_⟩
    intro _
    refine ⟨evs ++ [Ev.chdir], some e, by simp, ?_, rfl⟩
    intro x hx
    simpa using hx

theorem finishPart_spec (o : Oracle) (gd : String) (evs : List Ev) (cn fd : Bool)
    (mani : Option String) :
    (finishPart o gd evs cn fd mani).gitdir = gd ∧
    (finishPart o gd evs cn fd mani).commitNeeded = cn ∧
    (finishPart o gd evs cn fd mani).fullDeploymentNeeded = fd ∧
    (finishPart o gd evs cn fd mani).manifest = mani ∧
    (∃ t, (finishPart o gd evs cn fd mani).events = evs ++ t ∧
      t.count Ev.commit = 0 ∧ t.count Ev.push = 0 ∧ t.count Ev.writeFile = 0 ∧
      t.count Ev.checkoutNew = 0) ∧
    ((finishPart o gd evs cn fd mani).outcome = Outcome.reported none →
      okB o.runJobRes = true ∧ okB o.removeRes = true) ∧
    (∀ e0, (finishPart o gd evs cn fd mani).outcome = Outcome.reported (some e0) →
      isOracleErr o e0 ∧ Ev.chdir ∈ (finishPart o gd evs cn fd mani).events) ∧
    (okB o.removeCatchRes = true →
      ∃ p rr, (finishPart o gd evs cn fd mani).events = p ++ [Ev.remove, Ev.report rr] ∧
        (∀ x, Ev.report x ∈ p → Ev.report x ∈ evs) ∧
        (finishPart o gd evs cn fd mani).outcome = Outcome.reported rr) := by
  cases hj : o.runJobRes with
  | error e =>
    simp only [finishPart, hj]
    obtain ⟨h1, h2, h3, h4, ⟨t, ht, htc, htp, htw, htn⟩, h5, h6, h7⟩ :=
      catchPart_spec o gd evs cn fd mani
        (some (if fd then "deploy_env" else "deploy_mod")) e
    refine ⟨h1, h2, h3, h4, ⟨t, ht, htc, htp, htw, htn⟩, fun hc => absurd hc h5, ?_, h7⟩
    intro e0 he0
    obtain ⟨hee, hmem⟩ := h6 e0 he0
    subst hee
    exact ⟨Or.inr (Or.inr (Or.inr (Or.inr (Or.inr (Or.inr (Or.inr (Or.inr
      (Or.inr (Or.inl hj))))))))), hmem⟩
  | ok st =>
    cases hrm : o.removeRes with
    | error e =>
      simp only [finishPart, hj, hrm]
      obtain ⟨h1, h2, h3, h4, ⟨t, ht, htc, htp, htw, htn⟩, h5, h6, h7⟩ :=
        catchPart_spec o gd (evs ++ [Ev.runJob]) cn fd mani
          (some (if fd then "deploy_env" else "deploy_mod")) e
      refine ⟨h1, h2, h3, h4,
        ⟨[Ev.runJob] ++ t, by rw [ht, List.append_assoc], by simp [htc], by simp [htp],
          by simp [htw], by simp [htn]⟩, fun hc => absurd hc h5, ?_, ?_⟩
      · intro e0 he0
        obtain ⟨hee, hmem⟩ := h6 e0 he0
        subst hee
        exact ⟨Or.inr (Or.inr (Or.inr (Or.inr (Or.inr (Or.inr (Or.inr (Or.inr
          (Or.inr (Or.inr hrm))))))))), hmem⟩
      · intro hok
        obtain ⟨p, rr, hp, hnp, ho⟩ := h7 hok
        refine ⟨p, rr, hp, ?_, ho⟩
        intro x hx
        have hmem := hnp x hx
        rw [List.mem_append] at hmem
        rcases hmem with h | h
        · exact h
        · exact absurd h (by simp)
    | ok u =>
      simp only [finishPart, hj, hrm]
      refine ⟨trivial, trivial, trivial, trivial,
        ⟨[Ev.runJob, Ev.remove, Ev.report none], rfl, by simp, by simp, by simp, by simp⟩,
        by simp [okB, hj, hrm], by simp, ?_⟩
      intro _
      refine ⟨evs ++ [Ev.runJob], none, by simp, ?_, rfl⟩
      intro x hx
      simpa using hx

theorem report_mem_of_append {p evs extra : List Ev}
    (hne : ∀ x, Ev.report x ∉ extra)
    (h : ∀ x, Ev.report x ∈ p → Ev.report x ∈ evs ++ extra) :
    ∀ x, Ev.report x ∈ p → Ev.report x ∈ evs := by
  intro x hx
  have hmem := h x hx
  rw [List.mem_append] at hmem
  rcases hmem with h1 | h1
  · exact h1
  · exact absurd h1 (hne x)

theorem pushPart_spec (o : Oracle) (gd : String) (evs : List Ev) (cn fd : Bool)
    (mani : Option String) :
    (pushPart o gd evs cn fd mani).gitdir = gd ∧
    (pushPart o gd evs cn fd mani).commitNeeded = cn ∧
    (pushPart o gd evs cn fd mani).fullDeploymentNeeded = fd ∧
    (pushPart o gd evs cn fd mani).manifest = mani ∧
    (∃ t, (pushPart o gd evs cn fd mani).events = evs ++ t ∧
      t.count Ev.commit = 0 ∧ t.count Ev.writeFile = 0 ∧ t.count Ev.checkoutNew = 0 ∧
      t.count Ev.push ≤ 1 ∧
      (t.count Ev.push = 1 → (cn || fd) = true) ∧
      ((pushPart o gd evs cn fd mani).outcome = Outcome.reported none →
        t.count Ev.push = (if (cn || fd) = true then 1 else 0))) ∧
    (∀ e0, (pushPart o gd evs cn fd mani).outcome = Outcome.reported (some e0) →
      isOracleErr o e0 ∧ Ev.chdir ∈ (pushPart o gd evs cn fd mani).events) ∧
    (okB o.removeCatchRes = true →
      ∃ p rr, (pushPart o gd evs cn fd mani).events = p ++ [Ev.remove, Ev.report rr] ∧
        (∀ x, Ev.report x ∈ p → Ev.report x ∈ evs) ∧
        (pushPart o gd evs cn fd mani).outcome = Outcome.reported rr) := by
  by_cases hg : (cn || fd) = true
  · unfold pushPart
    rw [if_pos hg]
    cases hp : o.pushRes with
    | error e =>
      obtain ⟨h1, h2, h3, h4, ⟨t, ht, htc, htp, htw, htn⟩, h5, h6, h7⟩ :=
        catchPart_spec o gd evs cn fd mani none e
      refine ⟨h1, h2, h3, h4,
        ⟨t, ht, htc, htw, htn, by omega, fun h => by omega, fun hc => absurd hc h5⟩,
        ?_, h7⟩
      intro e0 he0
      obtain ⟨hee, hmem⟩ := h6 e0 he0
      subst hee
      exact ⟨Or.inr (Or.inr (Or.inr (Or.inr (Or.inr (Or.inr (Or.inr (Or.inr
        (Or.inl hp)))))))), hmem⟩
    | ok u =>
      obtain ⟨h1, h2, h3, h4, ⟨t, ht, htc, htp, htw, htn⟩, h5, h6, h7⟩ :=
        finishPart_spec o gd (evs ++ [Ev.push]) cn fd mani
      refine ⟨h1, h2, h3, h4,
        ⟨[Ev.push] ++ t, by rw [ht, List.append_assoc], by simp [htc], by simp [htw],
          by simp [htn], by simp [htp], fun _ => hg,
          fun _ => by simp [htp, hg]⟩, ?_, ?_⟩
      · intro e0 he0
        exact h6 e0 he0
      · intro hok
        obtain ⟨p, rr, hpp, hnp, ho⟩ := h7 hok
        exact ⟨p, rr, hpp, report_mem_of_append (by simp) hnp, ho⟩
  · unfold pushPart
    rw [if_neg hg]
    obtain ⟨h1, h2, h3, h4, ⟨t, ht, htc, htp, htw, htn⟩, h5, h6, h7⟩ :=
      finishPart_spec o gd evs cn fd mani
    refine ⟨h1, h2, h3, h4,
      ⟨t, ht, htc, htw, htn, by omega, fun h => by omega,
        fun _ => by simp [htp, hg]⟩, h6, h7⟩

theorem commitPart_spec (o : Oracle) (gd : String) (evs : List Ev) (cn fd : Bool)
    (mani : Option String) :
    (commitPart o gd evs cn fd mani).gitdir = gd ∧
    (commitPart o gd evs cn fd mani).commitNeeded = cn ∧
    (commitPart o gd evs cn fd mani).fullDeploymentNeeded = fd ∧
    (commitPart o gd evs cn fd mani).manifest = mani ∧
    (∃ t, (commitPart o gd evs cn fd mani).events = evs ++ t ∧
      t.count Ev.writeFile = 0 ∧ t.count Ev.checkoutNew = 0 ∧
      t.count Ev.commit ≤ 1 ∧
      (t.count Ev.commit = 1 → cn = true) ∧
      t.count Ev.push ≤ 1 ∧
      (t.count Ev.push = 1 → (cn || fd) = true) ∧
      ((commitPart o gd evs cn fd mani).outcome = Outcome.reported none →
        t.count Ev.commit = (if cn = true then 1 else 0) ∧
        t.count Ev.push = (if (cn || fd) = true then 1 else 0))) ∧
    (∀ e0, (commitPart o gd evs cn fd mani).outcome = Outcome.reported (some e0) →
      isOracleErr o e0 ∧ Ev.chdir ∈ (commitPart o gd evs cn fd mani).events) ∧
    (okB o.removeCatchRes = true →
      ∃ p rr, (commitPart o gd evs cn fd mani).events = p ++ [Ev.remove, Ev.report rr] ∧
        (∀ x, Ev.report x ∈ p → Ev.report x ∈ evs) ∧
        (commitPart o gd evs cn fd mani).outcome = Outcome.reported rr) := by
  by_cases hc : cn = true
  · unfold commitPart
    rw [if_pos hc]
    cases hcm : o.commitRes with
    | error e =>
      obtain ⟨h1, h2, h3, h4, ⟨t, ht, htc, htp, htw, htn⟩, h5, h6, h7⟩ :=
        catchPart_spec o gd evs cn fd mani none e
      refine ⟨h1, h2, h3, h4,
        ⟨t, ht, htw, htn, by omega, fun h => by omega, by omega, fun h => by omega,
          fun hco => absurd hco h5⟩, ?_, h7⟩
      intro e0 he0
      obtain ⟨hee, hmem⟩ := h6 e0 he0
      subst hee
      exact ⟨Or.inr (Or.inr (Or.inr (Or.inr (Or.inr (Or.inr (Or.inr (Or.inl
        hcm))))))), hmem⟩
    | ok u =>
      obtain ⟨h1, h2, h3, h4, ⟨t, ht, htc, htw, htn, htp1, htp2, htps⟩, h6, h7⟩ :=
        pushPart_spec o gd (evs ++ [Ev.commit]) cn fd mani
      refine ⟨h1, h2, h3, h4,
        ⟨[Ev.commit] ++ t, by rw [ht, List.append_assoc], by simp [htw], by simp [htn],
          by simp [htc], fun _ => hc, by simp [htp1], fun h => htp2 (by simpa using h),
          ?_⟩, h6, ?_⟩
      · intro hco
        constructor
        · simp [htc, hc]
        · have := htps hco
          simpa using this
      · intro hok
        obtain ⟨p, rr, hpp, hnp, ho⟩ := h7 hok
        exact ⟨p, rr, hpp, report_mem_of_append (by simp) hnp, ho⟩
  · unfold commitPart
    rw [if_neg hc]
    obtain ⟨h1, h2, h3, h4, ⟨t, ht, htc, htw, htn, htp1, htp2, htps⟩, h6, h7⟩ :=
      pushPart_spec o gd evs cn fd mani
    refine ⟨h1, h2, h3, h4,
      ⟨t, ht, htw, htn, by omega, fun h => by omega, htp1, htp2, ?_⟩, h6, h7⟩
    intro hco
    exact ⟨by simp [htc, hc], htps hco⟩

theorem updatePart_spec (o : Oracle) (pat : List UAtom)
    (mo ru br pfb gd : String) (evs : List Ev) (cn fd : Bool) :
    (updatePart o pat mo ru br pfb gd evs cn fd).gitdir = gd ∧
    (updatePart o pat mo ru br pfb gd evs cn fd).fullDeploymentNeeded = fd ∧
    (cn = true → (updatePart o pat mo ru br pfb gd evs cn fd).commitNeeded = true) ∧
    (∃ t, (updatePart o pat mo ru br pfb gd evs cn fd).events = evs ++ t ∧
      t.count Ev.checkoutNew = 0 ∧
      t.count Ev.writeFile ≤ 1 ∧
      t.count Ev.commit ≤ 1 ∧
      (t.count Ev.commit = 1 →
        (updatePart o pat mo ru br pfb gd evs cn fd).commitNeeded = true) ∧
      t.count Ev.push ≤ 1 ∧
      (t.count Ev.push = 1 →
        ((updatePart o pat mo ru br pfb gd evs cn fd).commitNeeded ||
         (updatePart o pat mo ru br pfb gd evs cn fd).fullDeploymentNeeded) = true) ∧
      ((updatePart o pat mo ru br pfb gd evs cn fd).commitNeeded = true →
        cn = true ∨ t.count Ev.writeFile = 1) ∧
      (∀ content, o.readRes = .ok content →
        (updatePuppetfile pat mo ru br pfb content).2 = false →
          t.count Ev.writeFile = 0) ∧
      ((updatePart o pat mo ru br pfb gd evs cn fd).outcome = Outcome.reported none →
        t.count Ev.commit =
          (if (updatePart o pat mo ru br pfb gd evs cn fd).commitNeeded = true then 1 else 0) ∧
        t.count Ev.push =
          (if ((updatePart o pat mo ru br pfb gd evs cn fd).commitNeeded ||
               (updatePart o pat mo ru br pfb gd evs cn fd).fullDeploymentNeeded) = true
           then 1 else 0))) ∧
    (∀ content, o.readRes = .ok content →
      (updatePuppetfile pat mo ru br pfb content).2 = false →
        (updatePart o pat mo ru br pfb gd evs cn fd).commitNeeded = cn ∧
        (updatePart o pat mo ru br pfb gd evs cn fd).manifest = none) ∧
    (∀ content, o.readRes = .ok content →
      (updatePuppetfile pat mo ru br pfb content).2 = true → okB o.writeRes = true →
        (updatePart o pat mo ru br pfb gd evs cn fd).commitNeeded = true ∧
        (updatePart o pat mo ru br pfb gd evs cn fd).manifest =
          some (updatePuppetfile pat mo ru br pfb content).1) ∧
    (∀ e0, (updatePart o pat mo ru br pfb gd evs cn fd).outcome = Outcome.reported (some e0) →
      isOracleErr o e0 ∧ Ev.chdir ∈ (updatePart o pat mo ru br pfb gd evs cn fd).events) ∧
    (okB o.removeCatchRes = true →
      ∃ p rr,
        (updatePart o pat mo ru br pfb gd evs cn fd).events = p ++ [Ev.remove, Ev.report rr] ∧
        (∀ x, Ev.report x ∈ p → Ev.report x ∈ evs) ∧
        (updatePart o pat mo ru br pfb gd evs cn fd).outcome = Outcome.reported rr) := by
  cases hrd : o.readRes with
  | error e =>
    simp only [updatePart, hrd]
    obtain ⟨h1, h2, h3, h4, ⟨t, ht, htc, htp, htw, htn⟩, h5, h6, h7⟩ :=
      catchPart_spec o gd evs cn fd none none e
    refine ⟨h1, h3, fun hcn => by rw [h2, hcn], 
      ⟨t, ht, htn, by omega, by omega, fun h => by omega, by omega, fun h => by omega,
        fun hcn => by rw [h2] at hcn; exact Or.inl hcn,
        fun content hc => absurd hc (by simp),
        fun hco => absurd hco h5⟩,
      fun content hc => absurd hc (by simp),
      fun content hc => absurd hc (by simp),
      ?_, h7⟩
    intro e0 he0
    obtain ⟨hee, hmem⟩ := h6 e0 he0
    subst hee
    exact ⟨Or.inr (Or.inr (Or.inr (Or.inr (Or.inr (Or.inl hrd))))), hmem⟩
  | ok content =>
    simp only [updatePart, hrd]
    by_cases hm : (updatePuppetfile pat mo ru br pfb content).2 = true
    · rw [if_pos hm]
      cases hw : o.writeRes with
      | error e =>
        obtain ⟨h1, h2, h3, h4, ⟨t, ht, htc, htp, htw, htn⟩, h5, h6, h7⟩ :=
          catchPart_spec o gd (evs ++ [Ev.readFile]) cn fd none none e
        refine ⟨h1, h3, fun hcn => by rw [h2, hcn],
          ⟨[Ev.readFile] ++ t, by rw [ht, List.append_assoc], by simp [htn],
            by simp; omega, by simp; omega, fun h => by simp [htc] at h,
            by simp; omega, fun h => by simp [htp] at h,
            fun hcn => by rw [h2] at hcn; exact Or.inl hcn,
            fun content0 hc hm0 => by
              have : content0 = content := by cases hc; rfl
              subst this
              exact absurd hm0 (by simp [hm]),
            fun hco => absurd hco h5⟩,
          fun content0 hc hm0 => by
            have : content0 = content := by cases hc; rfl
            subst this
            exact absurd hm0 (by simp [hm]),
          fun content0 hc hm0 hwok => absurd hwok (by simp [okB]),
          ?_, ?_⟩
        · intro e0 he0
          obtain ⟨hee, hmem⟩ := h6 e0 he0
          subst hee
          exact ⟨Or.inr (Or.inr (Or.inr (Or.inr (Or.inr (Or.inr (Or.inl hw)))))), hmem⟩
        · intro hok
          obtain ⟨p, rr, hpp, hnp, ho⟩ := h7 hok
          exact ⟨p, rr, hpp, report_mem_of_append (by simp) hnp, ho⟩
      | ok u =>
        obtain ⟨h1, h2, h3, h4, ⟨t, ht, htw, htn, htc1, htc2, htp1, htp2, htps⟩, h6, h7⟩ :=
          commitPart_spec o gd (evs ++ [Ev.readFile, Ev.writeFile]) true fd
            (some (updatePuppetfile pat mo ru br pfb content).1)
        refine ⟨h1, h3, fun _ => h2,
          ⟨[Ev.readFile, Ev.writeFile] ++ t, by rw [ht, List.append_assoc], by simp [htn],
            by simp [htw], by simp [htc1], fun _ => h2, by simp [htp1],
            fun h => by rw [h2, h3]; exact htp2 (by simpa using h),
            fun _ => Or.inr (by simp [htw]),
            fun content0 hc hm0 => by
              have : content0 = content := by cases hc; rfl
              subst this
              exact absurd hm0 (by simp [hm]),
            ?_⟩,
          fun content0 hc hm0 => by
            have : content0 = content := by cases hc; rfl
            subst this
            exact absurd hm0 (by simp [hm]),
          fun content0 hc hm0 hwok => by
            have : content0 = content := by cases hc; rfl
            subst this
            exact ⟨h2, h4⟩,
          h6, ?_⟩
        · intro hco
          obtain ⟨hcc, hcp⟩ := htps hco
          constructor
          · rw [h2]
            simpa using hcc
          · rw [h2, h3]
            simpa using hcp
        · intro hok
          obtain ⟨p, rr, hpp, hnp, ho⟩ := h7 hok
          exact ⟨p, rr, hpp, report_mem_of_append (by simp) hnp, ho⟩
    · rw [if_neg hm]
      obtain ⟨h1, h2, h3, h4, ⟨t, ht, htw, htn, htc1, htc2, htp1, htp2, htps⟩, h6, h7⟩ :=
        commitPart_spec o gd (evs ++ [Ev.readFile]) cn fd none
      refine ⟨h1, h3, fun hcn => by rw [h2, hcn],
        ⟨[Ev.readFile] ++ t, by rw [ht, List.append_assoc], by simp [htn],
          by simp [htw], by simp [htc1], fun h => by rw [h2]; exact htc2 (by simpa using h),
          by simp [htp1], fun h => by rw [h2, h3]; exact htp2 (by simpa using h),
          fun hcn => by rw [h2] at hcn; exact Or.inl hcn,
          fun content0 hc hm0 => by simp [htw],
          ?_⟩,
        fun content0 hc hm0 => ⟨h2, h4⟩,
        fun content0 hc hm0 hwok => by
          have : content0 = content := by cases hc; rfl
          subst this
          exact absurd hm0 (by simp at hm; simp [hm]),
        h6, ?_⟩
      · intro hco
        obtain ⟨hcc, hcp⟩ := htps hco
        constructor
        · rw [h2]
          simpa using hcc
        · rw [h2, h3]
          simpa using hcp
      · intro hok
        obtain ⟨p, rr, hpp, hnp, ho⟩ := h7 hok
        exact ⟨p, rr, hpp, report_mem_of_append (by simp) hnp, ho⟩

theorem runModify_spec (ev : EventData) (env : Option String) (o : Oracle) :
    (runModify ev env o).gitdir = "/var/tmp/puppetfile_repo_" ++ Nat.repr o.now ∧
    ((runModify ev env o).events.count Ev.commit ≤ 1 ∧
     (runModify ev env o).events.count Ev.push ≤ 1 ∧
     (runModify ev env o).events.count Ev.writeFile ≤ 1) ∧
    ((runModify ev env o).events.count Ev.commit = 1 →
      (runModify ev env o).commitNeeded = true) ∧
    ((runModify ev env o).events.count Ev.push = 1 →
      ((runModify ev env o).commitNeeded || (runModify ev env o).fullDeploymentNeeded) = true) ∧
    ((runModify ev env o).outcome = Outcome.reported none →
      (runModify ev env o).events.count Ev.commit =
        (if (runModify ev env o).commitNeeded = true then 1 else 0) ∧
      (runModify ev env o).events.count Ev.push =
        (if ((runModify ev env o).commitNeeded ||
             (runModify ev env o).fullDeploymentNeeded) = true then 1 else 0)) ∧
    ((runModify ev env o).commitNeeded = true →
      (runModify ev env o).events.count Ev.writeFile = 1 ∨
      (o.branchExistRes = .ok false ∧ okB o.checkoutNewRes = true)) ∧
    (okB o.cloneRes = true → okB o.fetchRes = true → o.branchExistRes = .ok false →
      okB o.checkoutNewRes = true →
        (runModify ev env o).commitNeeded = true ∧
        (runModify ev env o).fullDeploymentNeeded = true ∧
        (runModify ev env o).events.count Ev.checkoutNew = 1) ∧
    (o.branchExistRes = .ok true → ∀ content, o.readRes = .ok content →
      (updatePuppetfile (urlAtoms ev.repourl) ev.reponame ev.repourl ev.branch
        (puppetfileBranchNameOf env ev.branch) content).2 = false →
        (runModify ev env o).commitNeeded = false ∧
        (runModify ev env o).events.count Ev.writeFile = 0 ∧
        (runModify ev env o).manifest = none) ∧
    (∀ e0, (runModify ev env o).outcome = Outcome.reported (some e0) →
      isOracleErr o e0 ∧ Ev.chdir ∈ (runModify ev env o).events) ∧
    (okB o.removeCatchRes = true →
      ∃ p rr, (runModify ev env o).events = p ++ [Ev.remove, Ev.report rr] ∧
        (∀ x, Ev.report x ∉ p) ∧
        (runModify ev env o).outcome = Outcome.reported rr) := by
  cases hcl : o.cloneRes with
  | error e =>
    simp only [runModify, hcl]
    obtain ⟨h1, h2, h3, h4, ⟨t, ht, htc, htp, htw, htn⟩, h5, h6, h7⟩ :=
      catchPart_spec o ("/var/tmp/puppetfile_repo_" ++ Nat.repr o.now) [] false false
        none none e
    refine ⟨h1, ⟨by simp [ht, htc], by simp [ht, htp], by simp [ht, htw]⟩,
      fun h => by simp [ht, htc] at h, fun h => by simp [ht, htp] at h,
      fun hco => absurd hco h5,
      fun hcn => by rw [h2] at hcn; exact absurd hcn (by simp),
      fun hok => absurd hok (by simp [okB]),
      fun hbt content hrd hm0 => ⟨h2, by simp [ht, htw], h4⟩,
      ?_, ?_⟩
    · intro e0 he0
      obtain ⟨hee, hmem⟩ := h6 e0 he0
      subst hee
      exact ⟨Or.inl hcl, hmem⟩
    · intro hok
      obtain ⟨p, rr, hpp, hnp, ho⟩ := h7 hok
      exact ⟨p, rr, hpp, fun x hx => by simpa using hnp x hx, ho⟩
  | ok u1 =>
  cases hf : o.fetchRes with
  | error e =>
    simp only [runModify, hcl, hf]
    obtain ⟨h1, h2, h3, h4, ⟨t, ht, htc, htp, htw, htn⟩, h5, h6, h7⟩ :=
      catchPart_spec o ("/var/tmp/puppetfile_repo_" ++ Nat.repr o.now) [Ev.clone]
        false false none none e
    refine ⟨h1, ⟨by simp [ht, htc], by simp [ht, htp], by simp [ht, htw]⟩,
      fun h => by simp [ht, htc] at h, fun h => by simp [ht, htp] at h,
      fun hco => absurd hco h5,
      fun hcn => by rw [h2] at hcn; exact absurd hcn (by simp),
      fun _ hok => absurd hok (by simp [okB]),
      fun hbt content hrd hm0 => ⟨h2, by simp [ht, htw], h4⟩,
      ?_, ?_⟩
    · intro e0 he0
      obtain ⟨hee, hmem⟩ := h6 e0 he0
      subst hee
      exact ⟨Or.inr (Or.inl hf), hmem⟩
    · intro hok
      obtain ⟨p, rr, hpp, hnp, ho⟩ := h7 hok
      refine ⟨p, rr, hpp, fun x hx => ?_, ho⟩
      have := hnp x hx
      simp at this
  | ok u2 =>
  cases hb : o.branchExistRes with
  | error e =>
    simp only [runModify, hcl, hf, hb]
    obtain ⟨h1, h2, h3, h4, ⟨t, ht, htc, htp, htw, htn⟩, h5, h6, h7⟩ :=
      catchPart_spec o ("/var/tmp/puppetfile_repo_" ++ Nat.repr o.now)
        [Ev.clone, Ev.fetch] false false none none e
    refine ⟨h1, ⟨by simp [ht, htc], by simp [ht, htp], by simp [ht, htw]⟩,
      fun h => by simp [ht, htc] at h, fun h => by simp [ht, htp] at h,
      fun hco => absurd hco h5,
      fun hcn => by rw [h2] at hcn; exact absurd hcn (by simp),
      fun _ _ hbf => absurd hbf (by simp),
      fun hbt => absurd hbt (by simp),
      ?_, ?_⟩
    · intro e0 he0
      obtain ⟨hee, hmem⟩ := h6 e0 he0
      subst hee
      exact ⟨Or.inr (Or.inr (Or.inl hb)), hmem⟩
    · intro hok
      obtain ⟨p, rr, hpp, hnp, ho⟩ := h7 hok
      refine ⟨p, rr, hpp, fun x hx => ?_, ho⟩
      have := hnp x hx
      simp at this
  | ok bex =>
  cases bex with
  | true =>
    simp only [runModify, hcl, hf, hb, if_true]
    cases hce : o.checkoutExistingRes with
    | error e =>
      simp only [hce]
      obtain ⟨h1, h2, h3, h4, ⟨t, ht, htc, htp, htw, htn⟩, h5, h6, h7⟩ :=
        catchPart_spec o ("/var/tmp/puppetfile_repo_" ++ Nat.repr o.now)
          [Ev.clone, Ev.fetch, Ev.branchExist] false false none none e
      refine ⟨h1, ⟨by simp [ht, htc], by simp [ht, htp], by simp [ht, htw]⟩,
        fun h => by simp [ht, htc] at h, fun h => by simp [ht, htp] at h,
        fun hco => absurd hco h5,
        fun hcn => by rw [h2] at hcn; exact absurd hcn (by simp),
        fun _ _ hbf => absurd hbf (by simp),
        fun hbt content hrd hm0 => ⟨h2, by simp [ht, htw], h4⟩,
        ?_, ?_⟩
      · intro e0 he0
        obtain ⟨hee, hmem⟩ := h6 e0 he0
        subst hee
        exact ⟨Or.inr (Or.inr (Or.inr (Or.inl hce))), hmem⟩
      · intro hok
        obtain ⟨p, rr, hpp, hnp, ho⟩ := h7 hok
        refine ⟨p, rr, hpp, fun x hx => ?_, ho⟩
        have := hnp x hx
        simp at this
    | ok fdv =>
      simp only [hce]
      obtain ⟨h1, h2, h3, ⟨t, ht, htn, htw1, htc1, htc2, htp1, htp2, hwr, hnomod, hsucc⟩,
        hnm, hmod, h6, h7⟩ :=
        updatePart_spec o (urlAtoms ev.repourl) ev.reponame ev.repourl ev.branch
          (puppetfileBranchNameOf env ev.branch)
          ("/var/tmp/puppetfile_repo_" ++ Nat.repr o.now)
          [Ev.clone, Ev.fetch, Ev.branchExist, Ev.checkoutExisting] false fdv
      refine ⟨h1, ⟨by simp [ht, htc1], by simp [ht, htp1], by simp [ht, htw1]⟩,
        fun h => htc2 (by simpa [ht] using h),
        fun h => htp2 (by simpa [ht] using h),
        fun hco => by
          obtain ⟨hc1, hc2⟩ := hsucc hco
          constructor
          · simp [ht, hc1]
          · simp [ht, hc2],
        fun hcn => by
          rcases hwr hcn with h | h
          · exact absurd h (by simp)
          · exact Or.inl (by simp [ht, h]),
        fun _ _ hbf => absurd hbf (by simp),
        fun hbt content hrd hm0 => by
          obtain ⟨hu1, hu2⟩ := hnm content hrd hm0
          exact ⟨hu1, by simp [ht, hnomod content hrd hm0], hu2⟩,
        h6, ?_⟩
      intro hok
      obtain ⟨p, rr, hpp, hnp, ho⟩ := h7 hok
      refine ⟨p, rr, hpp, fun x hx => ?_, ho⟩
      have := hnp x hx
      simp at this
  | false =>
    simp only [runModify, hcl, hf, hb, if_false]
    cases hcn : o.checkoutNewRes with
    | error e =>
      simp only [hcn]
      obtain ⟨h1, h2, h3, h4, ⟨t, ht, htc, htp, htw, htn⟩, h5, h6, h7⟩ :=
        catchPart_spec o ("/var/tmp/puppetfile_repo_" ++ Nat.repr o.now)
          [Ev.clone, Ev.fetch, Ev.branchExist] false false none none e
      refine ⟨h1, ⟨by simp [ht, htc], by simp [ht, htp], by simp [ht, htw]⟩,
        fun h => by simp [ht, htc] at h, fun h => by simp [ht, htp] at h,
        fun hco => absurd hco h5,
        fun hcnn => absurd (h2.symm.trans hcnn) (by simp),
        fun _ _ _ hok => absurd hok (by simp [okB]),
        fun hbt => absurd hbt (by simp),
        ?_, ?_⟩
      · intro e0 he0
        obtain ⟨hee, hmem⟩ := h6 e0 he0
        subst hee
        exact ⟨Or.inr (Or.inr (Or.inr (Or.inr (Or.inl hcn)))), hmem⟩
      · intro hok
        obtain ⟨p, rr, hpp, hnp, ho⟩ := h7 hok
        refine ⟨p, rr, hpp, fun x hx => ?_, ho⟩
        have := hnp x hx
        simp at this
    | ok u3 =>
      simp only [hcn]
      obtain ⟨h1, h2, h3, ⟨t, ht, htn, htw1, htc1, htc2, htp1, htp2, hwr, hnomod, hsucc⟩,
        hnm, hmod, h6, h7⟩ :=
        updatePart_spec o (urlAtoms ev.repourl) ev.reponame ev.repourl ev.branch
          (puppetfileBranchNameOf env ev.branch)
          ("/var/tmp/puppetfile_repo_" ++ Nat.repr o.now)
          [Ev.clone, Ev.fetch, Ev.branchExist, Ev.checkoutNew] true true
      refine ⟨h1, ⟨by simp [ht, htc1], by simp [ht, htp1], by simp [ht, htw1]⟩,
        fun h => htc2 (by simpa [ht] using h),
        fun h => htp2 (by simpa [ht] using h),
        fun hco => by
          obtain ⟨hc1, hc2⟩ := hsucc hco
          constructor
          · simp [ht, hc1]
          · simp [ht, hc2],
        fun hcnn => Or.inr ⟨trivial, rfl⟩,
        fun _ _ _ _ => ⟨h3 rfl, h2, by simp [ht, htn]⟩,
        fun hbt => absurd hbt (by simp),
        h6, ?_⟩
      intro hok
      obtain ⟨p, rr, hpp, hnp, ho⟩ := h7 hok
      refine ⟨p, rr, hpp, fun x hx => ?_, ho⟩
      have := hnp x hx
      simp at this

/-- A found match's group 1 starts with a string matched by the URL atoms,
followed by a quote character. -/
theorem regexFind_g1_shape {pat : List UAtom} {l pre : List Char} {m : MatchRes}
    (h : regexFind pat l = some (pre, m)) :
    ∃ u q t, m.g1 = u ++ q :: t ∧ atomsMatch pat u = true ∧ isQuote q = true := by
  induction l generalizing pre m with
  | nil =>
    simp only [regexFind] at h
    cases hm : matchAt pat [] with
    | none => simp [hm] at h
    | some m0 =>
      simp only [hm, Option.map_some', Option.some.injEq] at h
      obtain ⟨h1, h2⟩ : pre = [] ∧ m0 = m := by cases h; exact ⟨rfl, rfl⟩
      subst h2
      exact (matchAt_decomp hm).2.2
  | cons c tl ih =>
    simp only [regexFind] at h
    cases hm : matchAt pat (c :: tl) with
    | some m0 =>
      simp only [hm, Option.some.injEq] at h
      obtain ⟨h1, h2⟩ : pre = [] ∧ m0 = m := by cases h; exact ⟨rfl, rfl⟩
      subst h2
      exact (matchAt_decomp hm).2.2
    | none =>
      simp only [hm] at h
      cases hr : regexFind pat tl with
      | none => simp [hr] at h
      | some p =>
        obtain ⟨pre0, m0⟩ := p
        simp only [hr, Option.map_some', Option.some.injEq] at h
        obtain ⟨h1, h2⟩ : c :: pre0 = pre ∧ m0 = m := by cases h; exact ⟨rfl, rfl⟩
        subst h2
        exact ih hr

/-- C1: in every run, the commit and push steps each run at most once; a
commit only happens when `commitNeeded` holds; and in a completed
(successfully reported) run the push step is performed exactly when
`commitNeeded || fullDeploymentNeeded` — the push gate is precisely that
logical OR (source lines 127–141). -/
theorem claim_C1_push_iff_commit_or_full (ev : EventData) (env : Option String)
    (o : Oracle) :
    (runModify ev env o).events.count Ev.commit ≤ 1 ∧
    (runModify ev env o).events.count Ev.push ≤ 1 ∧
    ((runModify ev env o).events.count Ev.commit = 1 →
      (runModify ev env o).commitNeeded = true) ∧
    ((runModify ev env o).events.count Ev.push = 1 →
      ((runModify ev env o).commitNeeded || (runModify ev env o).fullDeploymentNeeded)
        = true) ∧
    ((runModify ev env o).outcome = Outcome.reported none →
      ((runModify ev env o).events.count Ev.push = 1 ↔
        ((runModify ev env o).commitNeeded ||
         (runModify ev env o).fullDeploymentNeeded) = true) ∧
      ((runModify ev env o).events.count Ev.commit = 1 ↔
        (runModify ev env o).commitNeeded = true)) := by
  obtain ⟨hg, ⟨hc1, hp1, hw1⟩, hc2, hp2, hsucc, hwr, hc5, hc6, herr, hrep⟩ :=
    runModify_spec ev env o
  refine ⟨hc1, hp1, hc2, hp2, ?_⟩
  intro hco
  obtain ⟨h1, h2⟩ := hsucc hco
  refine ⟨⟨hp2, ?_⟩, ⟨hc2, ?_⟩⟩
  · intro hh
    rw [h2, if_pos hh]
  · intro hh
    rw [h1, if_pos hh]

/-- C1 witness: a concrete successful run (new branch, manifest already
correct) in which the push gate fires. -/
theorem claim_C1_witness :
    (runModify evW none (oracleAllOk maniW false)).outcome = Outcome.reported none ∧
    (runModify evW none (oracleAllOk maniW false)).events.count Ev.push = 1 :=
  ⟨by decide,
    (((claim_C1_push_iff_commit_or_full evW none (oracleAllOk maniW false)).2.2.2.2
      (by decide)).1).mpr (by decide)⟩

/-- C2 counterexample: when the target branch does not exist, `commitNeeded`
is forced true (line 76) even though the Puppetfile entry already points at
the branch, so no write of the manifest ever happens in the run — the claim
`commitNeeded ⇒ ManifestText was rewritten` is false. -/
theorem claim_C2_counterexample :
    (runModify evW none (oracleAllOk maniW false)).commitNeeded = true ∧
    (runModify evW none (oracleAllOk maniW false)).events.count Ev.writeFile = 0 ∧
    (runModify evW none (oracleAllOk maniW false)).outcome = Outcome.reported none := by
  decide

/-- C2 (amended): `commitNeeded` implies that the manifest was rewritten in
this run or that the target branch did not exist and was newly created. -/
theorem claim_C2_commit_implies_write_or_new_branch (ev : EventData)
    (env : Option String) (o : Oracle)
    (h : (runModify ev env o).commitNeeded = true) :
    (runModify ev env o).events.count Ev.writeFile = 1 ∨
    (o.branchExistRes = .ok false ∧ okB o.checkoutNewRes = true) :=
  (runModify_spec ev env o).2.2.2.2.2.1 h

/-- C2 witness: the amended implication at a concrete run (new branch, no
rewrite: the right disjunct holds). -/
theorem claim_C2_witness :
    (runModify evW none (oracleAllOk maniW false)).events.count Ev.writeFile = 1 ∨
    ((oracleAllOk maniW false).branchExistRes = .ok false ∧
      okB (oracleAllOk maniW false).checkoutNewRes = true) :=
  claim_C2_commit_implies_write_or_new_branch evW none (oracleAllOk maniW false)
    (by decide)

/-- C5: when clone and fetch succeed and the target branch does not exist on
the remote, a new branch is created (`checkoutNew` runs once) and both
`fullDeploymentNeeded` and `commitNeeded` are forced true regardless of the
manifest content; in a successfully completed such run a commit and a push
are both performed (lines 71–77). -/
theorem claim_C5_new_branch_forces_commit_and_full (ev : EventData)
    (env : Option String) (o : Oracle)
    (h1 : okB o.cloneRes = true) (h2 : okB o.fetchRes = true)
    (h3 : o.branchExistRes = .ok false) (h4 : okB o.checkoutNewRes = true) :
    (runModify ev env o).events.count Ev.checkoutNew = 1 ∧
    (runModify ev env o).commitNeeded = true ∧
    (runModify ev env o).fullDeploymentNeeded = true ∧
    ((runModify ev env o).outcome = Outcome.reported none →
      (runModify ev env o).events.count Ev.commit = 1 ∧
      (runModify ev env o).events.count Ev.push = 1) := by
  obtain ⟨hg, hcnt, hc2, hp2, hsucc, hwr, hc5, hc6, herr, hrep⟩ :=
    runModify_spec ev env o
  obtain ⟨a, b, c⟩ := hc5 h1 h2 h3 h4
  refine ⟨c, a, b, ?_⟩
  intro hco
  obtain ⟨x, y⟩ := hsucc hco
  constructor
  · rw [x, if_pos a]
  · rw [y, if_pos (by simp [a, b])]

/-- C5 witness: a concrete run with a nonexistent branch and an
already-correct manifest still commits and pushes. -/
theorem claim_C5_witness :
    (runModify evW none (oracleAllOk maniW false)).events.count Ev.commit = 1 ∧
    (runModify evW none (oracleAllOk maniW false)).events.count Ev.push = 1 :=
  (claim_C5_new_branch_forces_commit_and_full evW none (oracleAllOk maniW false)
    (by decide) (by decide) rfl (by decide)).2.2.2 (by decide)

/-- C9 counterexample: if the clone fails and the `fse.remove` inside the
catch block also fails, the rejection escapes the generator: the workspace is
not removed, `cbk` is never called (the result is reported zero times, not
once), and the original clone error is replaced by the cleanup error. -/
theorem claim_C9_counterexample :
    (runModify evW none oracleC9).outcome = Outcome.uncaught "rm boom" ∧
    (runModify evW none oracleC9).events.count Ev.remove = 0 ∧
    (runModify evW none oracleC9).events = [Ev.chdir] ∧
    oracleC9.cloneRes = Except.error "clone boom" :=
  ⟨by decide, by decide, by decide, rfl⟩

/-- C9 (amended): provided the catch-block removal succeeds, every run —
successful or failed at any step — removes the ephemeral workspace
immediately before reporting its result, reports exactly once (no report
event earlier in the trace), and on failure restores the working directory
and surfaces an error actually thrown by one of the run's steps
(lines 161–181). -/
theorem claim_C9_cleanup_and_single_report (ev : EventData) (env : Option String)
    (o : Oracle) (h : okB o.removeCatchRes = true) :
    ∃ p rr, (runModify ev env o).events = p ++ [Ev.remove, Ev.report rr] ∧
      (∀ x, Ev.report x ∉ p) ∧
      (runModify ev env o).outcome = Outcome.reported rr ∧
      (∀ e0, rr = some e0 →
        isOracleErr o e0 ∧ Ev.chdir ∈ (runModify ev env o).events) := by
  obtain ⟨hg, hcnt, hc2, hp2, hsucc, hwr, hc5, hc6, herr, hrep⟩ :=
    runModify_spec ev env o
  obtain ⟨p, rr, h1, h2, h3⟩ := hrep h
  refine ⟨p, rr, h1, h2, h3, ?_⟩
  intro e0 he
  subst he
  exact herr e0 h3

/-- C9 witness: the amended statement at a concrete successful run. -/
theorem claim_C9_witness :
    ∃ p rr, (runModify evW none (oracleAllOk maniW true)).events =
        p ++ [Ev.remove, Ev.report rr] ∧
      (∀ x, Ev.report x ∉ p) ∧
      (runModify evW none (oracleAllOk maniW true)).outcome = Outcome.reported rr ∧
      (∀ e0, rr = some e0 →
        isOracleErr (oracleAllOk maniW true) e0 ∧
        Ev.chdir ∈ (runModify evW none (oracleAllOk maniW true)).events) :=
  claim_C9_cleanup_and_single_report evW none (oracleAllOk maniW true) (by decide)

/-- C10 counterexample: two runs for different events that observe the same
`Date.now()` value acquire the same workspace directory name — the names are
not collision-free across concurrent runs. -/
theorem claim_C10_counterexample :
    evW ≠ evW2 ∧
    (runModify evW none (oracleAllOk maniW true)).gitdir =
      (runModify evW2 none (oracleAllOk "" true)).gitdir :=
  ⟨by decide, by decide⟩

/-- C10 (amended): the ephemeral workspace name is
`/var/tmp/puppetfile_repo_<Date.now()>`, a function of the millisecond
timestamp alone: two runs share a workspace name exactly when they observe
the same timestamp, so distinctness is guaranteed only between runs with
distinct `Date.now()` values (line 32). -/
theorem claim_C10_gitdir_collision (ev1 ev2 : EventData) (env1 env2 : Option String)
    (o1 o2 : Oracle) :
    (runModify ev1 env1 o1).gitdir = (runModify ev2 env2 o2).gitdir ↔
      o1.now = o2.now := by
  obtain ⟨h1, _⟩ := runModify_spec ev1 env1 o1
  obtain ⟨h2, _⟩ := runModify_spec ev2 env2 o2
  rw [h1, h2]
  constructor
  · intro h
    have hd := congrArg String.data h
    rw [String.data_append, String.data_append] at hd
    have h3 := List.append_cancel_left hd
    have h4 : Nat.repr o1.now = Nat.repr o2.now := congrArg String.mk h3
    exact natRepr_inj h4
  · intro h
    rw [h]

/-- C10 witness: the collision direction at two concrete same-timestamp runs. -/
theorem claim_C10_witness :
    (runModify evW none (oracleAllOk maniW true)).gitdir =
      (runModify evW2 none (oracleAllOk "" true)).gitdir :=
  (claim_C10_gitdir_collision evW evW2 none none (oracleAllOk maniW true)
    (oracleAllOk "" true)).mpr (by decide)

/-- C3 counterexample: a manifest with two entries for the repository URL
`u`.  Both are matched (first with ref `aa`, second with ref `bb`), and
because `module_regex` carries the global flag, `content.replace` rewrites
the second matching entry's reference as well — later matching entries are
not left byte-for-byte unchanged. -/
theorem claim_C3_counterexample :
    regexFind (urlAtoms "u") twoEntriesW.data =
      some (("mod \"m1\",\n  :git => \"").data,
        ⟨("u\",\n  :ref => \"").data, "aa".data, "\"".data,
         ("\nmod \"m2\",\n  :git => \"u\",\n  :ref => \"bb\"\n").data⟩) ∧
    regexFind (urlAtoms "u") ("\nmod \"m2\",\n  :git => \"u\",\n  :ref => \"bb\"\n").data =
      some (("\nmod \"m2\",\n  :git => \"").data,
        ⟨("u\",\n  :ref => \"").data, "bb".data, ("\"\n").data, []⟩) ∧
    updatePuppetfile (urlAtoms "u") "m1" "u" "feat" "feat" twoEntriesW =
      ("mod \"m1\",\n  :git => \"u\",\n  :ref => \"feat\"\nmod \"m2\",\n  :git => \"u\",\n  :ref => \"feat\"\n",
       true) :=
  ⟨by decide, by decide, by decide⟩

/-- C3 (amended): the decision whether to rewrite is taken from the first
match alone, but when a rewrite happens the replacement is global: every
matching entry's reference — not only the first — is rewritten to the
literal event branch name (the regex is built with the `g` flag and used
with `String.replace`). -/
theorem claim_C3_global_replace (url mo br pfb content : String)
    (pre1 pre2 : List Char) (m1 m2 : MatchRes)
    (_hsafe : urlRegexSafe url = true) (_hnd : noDollar br = true)
    (h1 : regexFind (urlAtoms url) content.data = some (pre1, m1))
    (h2 : regexFind (urlAtoms url) m1.rest = some (pre2, m2))
    (hne1 : String.mk m1.g2 ≠ pfb) (hne2 : String.mk m1.g2 ≠ "production") :
    updatePuppetfile (urlAtoms url) mo url br pfb content =
      (String.mk (pre1 ++ m1.g1 ++ br.data ++ m1.g3 ++
        (pre2 ++ m2.g1 ++ br.data ++ m2.g3 ++ replAll (urlAtoms url) br.data m2.rest)),
       true) := by
  have hexec : regexExec (urlAtoms url) content.data = some m1 := by
    unfold regexExec; rw [h1]; rfl
  simp only [updatePuppetfile, hexec]
  rw [if_pos ⟨hne1, hne2⟩]
  rw [replAll_some h1, replAll_some h2]

/-- C3 witness: the amended statement at the concrete two-entry manifest. -/
theorem claim_C3_witness :
    updatePuppetfile (urlAtoms "u") "m1" "u" "feat" "feat" twoEntriesW =
      (String.mk (("mod \"m1\",\n  :git => \"").data ++ ("u\",\n  :ref => \"").data ++
        "feat".data ++ "\"".data ++
        (("\nmod \"m2\",\n  :git => \"").data ++ ("u\",\n  :ref => \"").data ++
          "feat".data ++ ("\"\n").data ++ replAll (urlAtoms "u") "feat".data [])),
       true) :=
  claim_C3_global_replace "u" "m1" "feat" "feat" twoEntriesW
    ("mod \"m1\",\n  :git => \"").data ("\nmod \"m2\",\n  :git => \"").data
    ⟨("u\",\n  :ref => \"").data, "aa".data, "\"".data,
     ("\nmod \"m2\",\n  :git => \"u\",\n  :ref => \"bb\"\n").data⟩
    ⟨("u\",\n  :ref => \"").data, "bb".data, ("\"\n").data, []⟩
    (by decide) (by decide) (by decide) (by decide) (by decide) (by decide)

/-- C4 counterexample: the event URL `b/mod` is a strict suffix of the
manifest entry's URL `https://a/b/mod` (the two URLs differ), yet the
pattern — unanchored on the left — matches the entry and the updater
rewrites its reference. -/
theorem claim_C4_counterexample :
    "https://a/b/mod" ≠ "b/mod" ∧
    (regexExec (urlAtoms "b/mod") maniSufW.data).isSome = true ∧
    updatePuppetfile (urlAtoms "b/mod") "mod" "b/mod" "feat" "feat" maniSufW =
      ("mod \"mod\",\n  :git => \"https://a/b/mod\",\n  :ref => \"feat\"\n", true) ∧
    ("mod \"mod\",\n  :git => \"https://a/b/mod\",\n  :ref => \"feat\"\n" : String) ≠
      maniSufW :=
  ⟨by decide, by decide, by decide, by decide⟩

/-- C4 (amended): a match only guarantees that a string matched by the event
URL pattern occurs immediately before a quote inside group 1 — the match is
anchored on the right (closing quote, ref clause, end of line) but not on
the left, so an entry whose URL merely ends with the event URL can be
matched and altered.  Within a replacement, everything outside the captured
reference value (the skipped prefix, groups 1 and 3, and the remainder) is
preserved. -/
theorem claim_C4_match_soundness (url br content : String)
    (pre : List Char) (m : MatchRes)
    (_hsafe : urlRegexSafe url = true) (_hnd : noDollar br = true)
    (hfind : regexFind (urlAtoms url) content.data = some (pre, m)) :
    content.data = pre ++ m.g1 ++ m.g2 ++ m.g3 ++ m.rest ∧
    (∃ u q t, m.g1 = u ++ q :: t ∧ atomsMatch (urlAtoms url) u = true ∧
      isQuote q = true) ∧
    replAll (urlAtoms url) br.data content.data =
      pre ++ m.g1 ++ br.data ++ m.g3 ++ replAll (urlAtoms url) br.data m.rest :=
  ⟨regexFind_decomp hfind, regexFind_g1_shape hfind, replAll_some hfind⟩

/-- C4 witness: the soundness statement at the concrete suffix-URL manifest. -/
theorem claim_C4_witness :
    replAll (urlAtoms "b/mod") "feat".data maniSufW.data =
      ("mod \"mod\",\n  :git => \"https://a/").data ++ ("b/mod\",\n  :ref => \"").data ++
      "feat".data ++ ("\"\n").data ++ replAll (urlAtoms "b/mod") "feat".data [] :=
  (claim_C4_match_soundness "b/mod" "feat" maniSufW
    ("mod \"mod\",\n  :git => \"https://a/").data
    ⟨("b/mod\",\n  :ref => \"").data, "old".data, ("\"\n").data, []⟩
    (by decide) (by decide) (by decide)).2.2

/-- C6: if the first matching entry's captured reference equals the resolved
target branch name or the literal `production` sentinel, the updater leaves
the manifest untouched (returns the input text with no-change flag), and —
when the branch already existed — the run performs no manifest write and
`commitNeeded` stays false (lines 97–117). -/
theorem claim_C6_steady_state_unchanged (ev : EventData) (env : Option String)
    (o : Oracle) (content : String) (pre : List Char) (m : MatchRes)
    (hb : o.branchExistRes = .ok true)
    (hrd : o.readRes = .ok content)
    (hfind : regexFind (urlAtoms ev.repourl) content.data = some (pre, m))
    (heq : String.mk m.g2 = puppetfileBranchNameOf env ev.branch ∨
           String.mk m.g2 = "production") :
    updatePuppetfile (urlAtoms ev.repourl) ev.reponame ev.repourl ev.branch
      (puppetfileBranchNameOf env ev.branch) content = (content, false) ∧
    (runModify ev env o).commitNeeded = false ∧
    (runModify ev env o).events.count Ev.writeFile = 0 ∧
    (runModify ev env o).manifest = none := by
  have hupd : updatePuppetfile (urlAtoms ev.repourl) ev.reponame ev.repourl ev.branch
      (puppetfileBranchNameOf env ev.branch) content = (content, false) := by
    have hexec : regexExec (urlAtoms ev.repourl) content.data = some m := by
      unfold regexExec; rw [hfind]; rfl
    simp only [updatePuppetfile, hexec]
    rw [if_neg ?_]
    rintro ⟨hne1, hne2⟩
    rcases heq with h | h
    · exact hne1 h
    · exact hne2 h
  obtain ⟨hg, hcnt, hc2, hp2, hsucc, hwr, hc5, hc6, herr, hrep⟩ :=
    runModify_spec ev env o
  obtain ⟨a, b, c⟩ := hc6 hb content hrd (by rw [hupd])
  exact ⟨hupd, a, b, c⟩

/-- C6 witness: a concrete run on an existing branch whose manifest already
references the target branch: nothing is written, no commit is needed. -/
theorem claim_C6_witness :
    (runModify evW none (oracleAllOk maniW true)).commitNeeded = false ∧
    (runModify evW none (oracleAllOk maniW true)).events.count Ev.writeFile = 0 ∧
    (runModify evW none (oracleAllOk maniW true)).manifest = none :=
  (claim_C6_steady_state_unchanged evW none (oracleAllOk maniW true) maniW
    ("mod \"mymod\",\n  :git => \"").data
    ⟨("https://git/mymod\",\n  :ref => \"").data, "feature-x".data, ("\"\n").data, []⟩
    rfl rfl (by decide) (Or.inl (by decide))).2

/-- C7: when the manifest has exactly one match for the event URL and its
captured reference differs from both the resolved target branch name and the
`production` sentinel, the updater rewrites precisely the reference substring
to the literal event branch name — every byte outside the captured reference
(prefix, groups 1 and 3, remainder) is preserved — and reports the text as
modified (lines 105–115). -/
theorem claim_C7_rewrite_in_place (url mo br pfb content : String)
    (pre : List Char) (m : MatchRes)
    (_hsafe : urlRegexSafe url = true) (_hnd : noDollar br = true)
    (hfind : regexFind (urlAtoms url) content.data = some (pre, m))
    (hunique : regexFind (urlAtoms url) m.rest = none)
    (hne1 : String.mk m.g2 ≠ pfb) (hne2 : String.mk m.g2 ≠ "production") :
    content.data = pre ++ m.g1 ++ m.g2 ++ m.g3 ++ m.rest ∧
    updatePuppetfile (urlAtoms url) mo url br pfb content =
      (String.mk (pre ++ m.g1 ++ br.data ++ m.g3 ++ m.rest), true) := by
  refine ⟨regexFind_decomp hfind, ?_⟩
  have hexec : regexExec (urlAtoms url) content.data = some m := by
    unfold regexExec; rw [hfind]; rfl
  simp only [updatePuppetfile, hexec]
  rw [if_pos ⟨hne1, hne2⟩]
  rw [replAll_some hfind, replAll_none hunique]

/-- C7 witness: the in-place rewrite at a concrete stale-reference manifest. -/
theorem claim_C7_witness :
    updatePuppetfile (urlAtoms "https://git/mymod") "mymod" "https://git/mymod"
      "feature-x" "feature-x" maniOldW =
      (String.mk (("mod \"mymod\",\n  :git => \"").data ++
        ("https://git/mymod\",\n  :ref => \"").data ++ "feature-x".data ++
        ("\"\n").data ++ []), true) :=
  (claim_C7_rewrite_in_place "https://git/mymod" "mymod" "feature-x" "feature-x"
    maniOldW ("mod \"mymod\",\n  :git => \"").data
    ⟨("https://git/mymod\",\n  :ref => \"").data, "old-br".data, ("\"\n").data, []⟩
    (by decide) (by decide) (by decide) (by decide) (by decide) (by decide)).2

/-- C8 counterexample: with event branch `production` and default-branch
override `master`, the resolved target branch is `master`, yet the in-place
rewrite path (the entry IS found, so this is not the append) writes the
literal, unresolved branch name `production` into the manifest — the append
is not the only place the unresolved event branch name is written. -/
theorem claim_C8_counterexample :
    puppetfileBranchNameOf (some "master") "production" = "master" ∧
    (regexExec (urlAtoms "https://git/m") maniProdW.data).isSome = true ∧
    updatePuppetfile (urlAtoms "https://git/m") "m" "https://git/m" "production"
      "master" maniProdW =
      ("mod \"m\",\n  :git => \"https://git/m\",\n  :ref => \"production\"\n", true) ∧
    "production" ≠ "master" :=
  ⟨by decide, by decide, by decide, by decide⟩

/-- C8 (amended): when the manifest contains no match for the event URL, the
updater appends exactly one well-formed entry whose reference is the literal
(unresolved) event branch name and reports the text as modified (so
`commitNeeded` becomes true); the rewrite path, however, likewise writes the
literal event branch name, so the append is not the only such place
(lines 84–96, 105–115). -/
theorem claim_C8_append_literal_branch (url mo br pfb content : String)
    (hfind : regexFind (urlAtoms url) content.data = none) :
    updatePuppetfile (urlAtoms url) mo url br pfb content =
      (content ++ appendedEntry mo url br, true) := by
  have hexec : regexExec (urlAtoms url) content.data = none := by
    unfold regexExec; rw [hfind]; rfl
  simp only [updatePuppetfile, hexec]

/-- C8 witness: the append at a concrete manifest without the module. -/
theorem claim_C8_witness :
    updatePuppetfile (urlAtoms "https://git/new") "newmod" "https://git/new"
      "feature-z" "feature-z" "# modules\n" =
      ("# modules\n" ++ appendedEntry "newmod" "https://git/new" "feature-z", true) :=
  claim_C8_append_literal_branch "https://git/new" "newmod" "feature-z" "feature-z"
    "# modules\n" (by decide)
